import Mathlib

/-!
Shallow embedding of the RFID door controller firmware (src/rfid/rfid.ino)
and verification of the specification claims about its persistent
credential registry and provisioning state machine.

Modelling conventions:
* EEPROM is a byte-addressed map `Nat → Nat`; `EEPROM.write` is `eeWrite`.
* `uint8_t` arithmetic is `Nat` arithmetic with an explicit `% 256` at each
  point where the C code truncates (assignment of a wider int expression to
  a `uint8_t` variable, increment/decrement wrap-around).
* The C global `boolean match` (declared `false` at rfid.ino:79 and mutated
  by `checkTwo`) is threaded explicitly as a `Bool` argument and result.
* Mutating operations additionally return the ordered list of
  `(address, value)` EEPROM writes they issue, so that write-ordering
  claims can be stated.
* Hardware I/O (tones, serial prints, the servo) has no effect on the
  registry and is omitted; reader scans enter as explicit arguments.
-/

namespace RFIDdoor

/-- EEPROM contents: address to byte value. -/
abbrev EE := Nat → Nat

/-- A 4-byte card UID, as in the C arrays `byte a[4]`. -/
abbrev Cred := Fin 4 → Nat

/-- `EEPROM.write(addr, v)`. -/
def eeWrite (e : EE) (addr v : Nat) : EE :=
  fun x => if x = addr then v else e x

/-- `readID(number)` (rfid.ino:413-418): slot `number` starts at
`uint8_t start = (number * 4) + 2` (truncated to a byte) and the four
bytes are read at `start + i` (int arithmetic, no further truncation). -/
def readID (e : EE) (number : Nat) : Cred :=
  fun i => e ((number * 4 + 2) % 256 + (i : Nat))

/-- `checkTwo(a, b)` (rfid.ino:469-482) with the global `match` flag
threaded through: `match` is set to `true` only when `a[0] != 0`, then
cleared by any byte mismatch; the final flag value is both returned and
left in the global. -/
def checkTwo (a b : Cred) (m : Bool) : Bool :=
  if a 0 = b 0 ∧ a 1 = b 1 ∧ a 2 = b 2 ∧ a 3 = b 3 then
    (if a 0 ≠ 0 then true else m)
  else
    false

/-- The scan loop of `findID` (rfid.ino:500-508): `i` is the current slot,
`m` the global `match` flag, and the last argument the remaining number of
iterations (`count - i + 1`). Returns (found, final match flag). -/
def findFrom (e : EE) (a : Cred) : Nat → Bool → Nat → Bool × Bool
  | _, m, 0 => (false, m)
  | i, m, rem + 1 =>
    let r := checkTwo a (readID e i) m
    if r then (true, true) else findFrom e a (i + 1) false rem

/-- `findID(find)` (rfid.ino:498-510): scans slots `1..count` where
`count = EEPROM.read(0)`. -/
def findID (e : EE) (a : Cred) (m : Bool) : Bool × Bool :=
  findFrom e a 1 m (e 0)

/-- The scan loop of `findIDSLOT` (rfid.ino:487-494). `none` models the
fall-through path: the loop can finish without any `return` having
executed, in which case the C function yields an unspecified value. -/
def findSlotFrom (e : EE) (a : Cred) : Nat → Bool → Nat → Option Nat × Bool
  | _, m, 0 => (none, m)
  | i, m, rem + 1 =>
    let r := checkTwo a (readID e i) m
    if r then (some i, true) else findSlotFrom e a (i + 1) false rem

/-- `findIDSLOT(find)` (rfid.ino:485-495). -/
def findIDSLOT (e : EE) (a : Cred) (m : Bool) : Option Nat × Bool :=
  findSlotFrom e a 1 m (e 0)

/-- `isMaster(test)` (rfid.ino:514-519): `checkTwo(test, masterCard)`. -/
def isMaster (t master : Cred) (m : Bool) : Bool :=
  checkTwo t master m

/-- `writeID(a)` (rfid.ino:421-437). On the success path the code reads
`num = EEPROM.read(0)`, computes `uint8_t start = (num * 4) + 6`
(byte-truncated), increments the counter, writes the NEW COUNT TO ADDRESS 0
FIRST (line 426) and only then writes the four payload bytes (427-429).
Returns (result, final EEPROM, final match flag, ordered write trace). -/
def writeID (e : EE) (a : Cred) (m : Bool) : Bool × EE × Bool × List (Nat × Nat) :=
  let f := findID e a m
  if f.1 = true then
    (false, e, f.2, [])
  else
    let num := e 0
    let start := (num * 4 + 6) % 256
    let num1 := (num + 1) % 256
    let e1 := eeWrite e 0 num1
    let e2 := eeWrite e1 start (a 0)
    let e3 := eeWrite e2 (start + 1) (a 1)
    let e4 := eeWrite e3 (start + 2) (a 2)
    let e5 := eeWrite e4 (start + 3) (a 3)
    (true, e5, f.2,
      [(0, num1), (start, a 0), (start + 1, a 1), (start + 2, a 2), (start + 3, a 3)])

/-- The shift loop of `deleteID` (rfid.ino:457-459):
`EEPROM.write(start + j, EEPROM.read(start + 4 + j))` for
`j = 0 .. looping - 1`, threading the evolving memory. Also returns the
ordered write trace. -/
def shiftAux (start : Nat) : EE → Nat → Nat → EE × List (Nat × Nat)
  | e, _, 0 => (e, [])
  | e, j, rem + 1 =>
    let v := e (start + 4 + j)
    let r := shiftAux start (eeWrite e (start + j) v) (j + 1) rem
    (r.1, (start + j, v) :: r.2)

/-- The zero-fill loop of `deleteID` (rfid.ino:460-462): writes 0 to the
four bytes starting at `start + looping`. -/
def zeroFill : EE → Nat → Nat → EE × List (Nat × Nat)
  | e, _, 0 => (e, [])
  | e, p, rem + 1 =>
    let r := zeroFill (eeWrite e p 0) (p + 1) rem
    (r.1, (p, 0) :: r.2)

/-- `deleteID(a)` (rfid.ino:440-466). On the success path: `slot` comes
from `findIDSLOT` (whose fall-through yields an unspecified value, modelled
as the default 0 which the verified theorems never reach);
`uint8_t start = (slot * 4) + 2` and `uint8_t looping = (num - slot) * 4`
are byte-truncated; the DECREMENTED COUNT IS WRITTEN TO ADDRESS 0 FIRST
(line 456), then the shift loop runs, then the vacated last slot is
zero-filled. (`num - slot` is Nat subtraction; `findIDSLOT` only ever
returns indices `≤ num`, so it agrees with the C int subtraction.) -/
def deleteID (e : EE) (a : Cred) (m : Bool) : Bool × EE × Bool × List (Nat × Nat) :=
  let f := findID e a m
  if f.1 = false then
    (false, e, f.2, [])
  else
    let num := e 0
    let s := findIDSLOT e a f.2
    let slot := s.1.getD 0
    let start := (slot * 4 + 2) % 256
    let looping := ((num - slot) * 4) % 256
    let num1 := (num + 255) % 256
    let e1 := eeWrite e 0 num1
    let sh := shiftAux start e1 0 looping
    let z := zeroFill sh.1 (start + looping) 4
    (true, z.1, s.2, (0, num1) :: (sh.2 ++ z.2))

/-- The EEPROM wipe loop of `setup` (rfid.ino:147-165):
`for (uint8_t x = 0; x < EEPROM.length(); x = x + 1)` — the index `x` is a
`uint8_t`, so it wraps modulo 256; already-zero bytes are skipped. `L` is
`EEPROM.length()`. Fuel-indexed: `none` means the loop has not finished
within the given number of iterations. -/
def wipeAux (L : Nat) : EE → Nat → Nat → Option EE
  | _, _, 0 => none
  | e, x, fuel + 1 =>
    if x < L then
      wipeAux L (if e x = 0 then e else eeWrite e x 0) ((x + 1) % 256) fuel
    else
      some e

/-- The bootstrap wipe path (rfid.ino:132-174): the wipe pin is sampled on
entry (`b1`, line 132), the 10-second window elapses, the pin is sampled
again (`b2`, line 143); only if both samples are LOW does the wipe loop
run, otherwise the EEPROM is untouched. -/
def setupWipePath (L : Nat) (b1 b2 : Bool) (e : EE) (fuel : Nat) : Option EE :=
  if b1 then
    (if b2 then wipeAux L e 0 fuel else some e)
  else
    some e

/-- The main-loop wipe path (rfid.ino:229-245): pin sampled on entry
(`b1`), 5-second window, pin sampled again (`b2`); if both LOW the code
executes `EEPROM.write(1, 0)` and then `while (1);` (halt). The returned
Bool is the halt flag. -/
def loopWipePath (b1 b2 : Bool) (e : EE) : EE × Bool :=
  if b1 then
    (if b2 then (eeWrite e 1 0, true) else (e, false))
  else
    (e, false)

/-- One iteration of `loop()` after a successful read (rfid.ino:251-341),
restricted to the registry-relevant state: `pm` is `programMode`, `m` the
global `match` flag, `c` the scanned card, `second` the optional second
scan used by the enter-programming handshake (rfid.ino:303). Tones, serial
output and the servo are external I/O and omitted. Returns
(new programMode, new EEPROM, new match flag). -/
def loopStep (master : Cred) (pm : Bool) (e : EE) (m : Bool) (c : Cred)
    (second : Option Cred) : Bool × EE × Bool :=
  if pm then
    let r1 := isMaster c master m
    if r1 then
      (false, e, r1)
    else
      let f := findID e c r1
      if f.1 then
        let d := deleteID e c f.2
        (false, d.2.1, d.2.2.1)
      else
        let w := writeID e c f.2
        (false, w.2.1, w.2.2.1)
  else
    let r1 := isMaster c master m
    if r1 then
      match second with
      | some c2 =>
        let r2 := isMaster c2 master true
        if r2 then (true, e, r2) else (false, e, r2)
      | none => (false, e, r1)
    else
      let f := findID e c r1
      (false, e, f.2)

/-- Builds a concrete EEPROM state from a list of leading byte values
(all remaining bytes are 0). -/
def mkEE (l : List Nat) : EE :=
  fun x => l.getD x 0

/-- Credential [1,2,3,4]. -/
def cA : Cred := ![1, 2, 3, 4]

/-- Credential [0,5,5,5]: first byte zero. -/
def cZ : Cred := ![0, 5, 5, 5]

/-- Empty registry: count 0, everything else 0. -/
def ee0 : EE := mkEE []

/-- Registry with one entry [1,2,3,4] in slot 1 (bytes 6-9), count 1. -/
def ee1 : EE := mkEE [1, 0, 0, 0, 0, 0, 1, 2, 3, 4]

/-- Registry with one entry [0,5,5,5] in slot 1 (bytes 6-9), count 1. -/
def eeZ : EE := mkEE [1, 0, 0, 0, 0, 0, 0, 5, 5, 5]

/-- Registry at full capacity: count = 254 (the 1024-byte EEPROM of the
sketch's target boards holds (1024 - 6) / 4 = 254 slots), all slots zero. -/
def eeFull : EE := mkEE [254]

/-- Registry with a defined master [9,9,9,9] (marker 143 at byte 1). -/
def eeM : EE := mkEE [0, 143, 9, 9, 9, 9]

/-- For a probe credential whose first byte is nonzero, `checkTwo` is a
pure byte-wise equality test (the global flag is irrelevant). -/
theorem checkTwo_true_iff (a b : Cred) (m : Bool) (ha : a 0 ≠ 0) :
    checkTwo a b m = true ↔ a = b := by
  constructor
  · intro h
    unfold checkTwo at h
    split at h
    · rename_i hc
      funext k
      fin_cases k
      · exact hc.1
      · exact hc.2.1
      · exact hc.2.2.1
      · exact hc.2.2.2
    · exact absurd h (by simp)
  · intro h
    subst h
    unfold checkTwo
    rw [if_pos ⟨rfl, rfl, rfl, rfl⟩, if_pos ha]

/-- Any byte mismatch forces `checkTwo` to return false, whatever the
global flag holds. -/
theorem checkTwo_false_of_ne (a b : Cred) (m : Bool) (h : a ≠ b) :
    checkTwo a b m = false := by
  unfold checkTwo
  split
  · rename_i hc
    exact absurd (funext fun k => by
      fin_cases k
      · exact hc.1
      · exact hc.2.1
      · exact hc.2.2.1
      · exact hc.2.2.2) h
  · rfl

/-- For a nonzero-first-byte probe, the scan loop finds the credential
exactly when one of the scanned slots holds it. -/
theorem findFrom_true_iff (e : EE) (a : Cred) (ha : a 0 ≠ 0) :
    ∀ rem i m, (findFrom e a i m rem).1 = true ↔ ∃ k, k < rem ∧ readID e (i + k) = a := by
  intro rem
  induction rem with
  | zero =>
    intro i m
    simp [findFrom]
  | succ n ih =>
    intro i m
    show ((if checkTwo a (readID e i) m then (true, true)
            else findFrom e a (i + 1) false n).1 = true) ↔ _
    rcases hc : checkTwo a (readID e i) m with _ | _
    · rw [if_neg (by simp)]
      rw [ih (i + 1) false]
      have hne : readID e i ≠ a := by
        intro h
        rw [(checkTwo_true_iff a (readID e i) m ha).mpr h.symm] at hc
        exact Bool.false_ne_true hc.symm
      constructor
      · rintro ⟨k, hk, hm⟩
        exact ⟨k + 1, by omega, by rw [show i + (k + 1) = i + 1 + k by omega]; exact hm⟩
      · rintro ⟨k, hk, hm⟩
        match k with
        | 0 => exact absurd (by simpa using hm) hne
        | k + 1 =>
          exact ⟨k, by omega, by rw [show i + 1 + k = i + (k + 1) by omega]; exact hm⟩
    · rw [if_pos rfl]
      simp only [true_iff]
      exact ⟨0, by omega, by
        simpa using ((checkTwo_true_iff a (readID e i) m ha).mp hc).symm⟩

/-- If none of the scanned slots holds the credential byte-for-byte, the
scan loop reports not-found (this needs no assumption on the first byte:
a byte mismatch always clears the flag). -/
theorem findFrom_false_of_absent (e : EE) (a : Cred) :
    ∀ rem i m, (∀ k, k < rem → readID e (i + k) ≠ a) →
      (findFrom e a i m rem).1 = false := by
  intro rem
  induction rem with
  | zero =>
    intro i m _
    rfl
  | succ n ih =>
    intro i m habs
    show ((if checkTwo a (readID e i) m then (true, true)
            else findFrom e a (i + 1) false n).1 = false)
    have hne : a ≠ readID e i := by
      intro h
      exact habs 0 (by omega) (by simpa using h.symm)
    rw [checkTwo_false_of_ne a (readID e i) m hne, if_neg (by simp)]
    exact ih (i + 1) false fun k hk => by
      have := habs (k + 1) (by omega)
      rw [show i + (k + 1) = i + 1 + k by omega] at this
      exact this

/-- For a nonzero-first-byte probe that occurs among the scanned slots,
the slot scan returns the first occurrence (in particular it does return,
so the fall-through path is not taken). -/
theorem findSlotFrom_found (e : EE) (a : Cred) (ha : a 0 ≠ 0) :
    ∀ rem i m, (∃ k, k < rem ∧ readID e (i + k) = a) →
      ∃ k, k < rem ∧ readID e (i + k) = a ∧
        (∀ j, j < k → readID e (i + j) ≠ a) ∧
        (findSlotFrom e a i m rem).1 = some (i + k) := by
  intro rem
  induction rem with
  | zero =>
    rintro i m ⟨k, hk, _⟩
    omega
  | succ n ih =>
    rintro i m ⟨k, hk, hm⟩
    show ∃ k, _ ∧ _ ∧ _ ∧ ((if checkTwo a (readID e i) m then (some i, true)
      else findSlotFrom e a (i + 1) false n).1 = some (i + k))
    rcases hc : checkTwo a (readID e i) m with _ | _
    · have hne : readID e i ≠ a := by
        intro h
        rw [(checkTwo_true_iff a (readID e i) m ha).mpr h.symm] at hc
        exact Bool.false_ne_true hc.symm
      have hk1 : ∃ k, k < n ∧ readID e (i + 1 + k) = a := by
        match k, hk, hm with
        | 0, _, hm => exact absurd (by simpa using hm) hne
        | k + 1, hk, hm =>
          exact ⟨k, by omega, by rw [show i + 1 + k = i + (k + 1) by omega]; exact hm⟩
      obtain ⟨k1, hk1a, hk1b, hk1min, hk1res⟩ := ih (i + 1) false hk1
      refine ⟨k1 + 1, by omega, ?_, ?_, ?_⟩
      · rw [show i + (k1 + 1) = i + 1 + k1 by omega]
        exact hk1b
      · intro j hj
        match j with
        | 0 => simpa using hne
        | j + 1 =>
          rw [show i + (j + 1) = i + 1 + j by omega]
          exact hk1min j (by omega)
      · rw [if_neg (by simp), show i + (k1 + 1) = i + 1 + k1 by omega]
        exact hk1res
    · refine ⟨0, by omega, ?_, by omega, ?_⟩
      · simpa using ((checkTwo_true_iff a (readID e i) m ha).mp hc).symm
      · rw [if_pos rfl]
        simp

/-- `findID` finds a nonzero-first-byte credential exactly when it is
stored in one of slots `1 .. count`. -/
theorem findID_true_iff (e : EE) (a : Cred) (m : Bool) (ha : a 0 ≠ 0) :
    (findID e a m).1 = true ↔ ∃ i, 1 ≤ i ∧ i ≤ e 0 ∧ readID e i = a := by
  unfold findID
  rw [findFrom_true_iff e a ha (e 0) 1 m]
  constructor
  · rintro ⟨k, hk, hm⟩
    exact ⟨1 + k, by omega, by omega, hm⟩
  · rintro ⟨i, h1, h2, hm⟩
    exact ⟨i - 1, by omega, by rw [show 1 + (i - 1) = i by omega]; exact hm⟩

/-- `findID` reports not-found for any credential absent from slots
`1 .. count`, regardless of the probe's first byte or the global flag. -/
theorem findID_false_of_absent (e : EE) (a : Cred) (m : Bool)
    (h : ∀ i, 1 ≤ i → i ≤ e 0 → readID e i ≠ a) :
    (findID e a m).1 = false := by
  unfold findID
  exact findFrom_false_of_absent e a (e 0) 1 m fun k hk => h (1 + k) (by omega) (by omega)

/-- `findIDSLOT` returns the index of the first slot holding a stored
nonzero-first-byte credential. -/
theorem findIDSLOT_found (e : EE) (a : Cred) (m : Bool) (ha : a 0 ≠ 0)
    (hp : ∃ i, 1 ≤ i ∧ i ≤ e 0 ∧ readID e i = a) :
    ∃ s, 1 ≤ s ∧ s ≤ e 0 ∧ readID e s = a ∧
      (∀ j, 1 ≤ j → j < s → readID e j ≠ a) ∧
      (findIDSLOT e a m).1 = some s := by
  obtain ⟨i, h1, h2, hm⟩ := hp
  obtain ⟨k, hk, hka, hkmin, hkres⟩ :=
    findSlotFrom_found e a ha (e 0) 1 m ⟨i - 1, by omega, by rw [show 1 + (i - 1) = i by omega]; exact hm⟩
  exact ⟨1 + k, by omega, by omega, hka,
    fun j hj1 hj2 => by
      have := hkmin (j - 1) (by omega)
      rw [show 1 + (j - 1) = j by omega] at this
      exact this,
    hkres⟩

/-- Pointwise effect of the shift loop: bytes in the shifted window take
the value four addresses higher in the pre-loop memory (the loop reads
`start + 4 + j`, which is never an address it has already written), all
other bytes are untouched. -/
theorem shiftAux_spec (start : Nat) :
    ∀ rem e j x, (shiftAux start e j rem).1 x =
      if start + j ≤ x ∧ x < start + j + rem then e (x + 4) else e x := by
  intro rem
  induction rem with
  | zero =>
    intro e j x
    show e x = _
    rw [if_neg (by omega)]
  | succ n ih =>
    intro e j x
    show (shiftAux start (eeWrite e (start + j) (e (start + 4 + j))) (j + 1) n).1 x = _
    rw [ih]
    by_cases h1 : start + (j + 1) ≤ x ∧ x < start + (j + 1) + n
    · rw [if_pos h1, if_pos (by omega)]
      show (if x + 4 = start + j then _ else e (x + 4)) = e (x + 4)
      rw [if_neg (by omega)]
    · rw [if_neg h1]
      by_cases h2 : x = start + j
      · show (if x = start + j then e (start + 4 + j) else e x) = _
        rw [if_pos h2, if_pos (by omega)]
        congr 1
        omega
      · show (if x = start + j then e (start + 4 + j) else e x) = _
        rw [if_neg h2, if_neg (by omega)]

/-- On the not-found path `writeID` performs no writes; this is the
success path characterization used by several claims. -/
theorem writeID_found_no_write (e : EE) (a : Cred) (m : Bool)
    (h : (findID e a m).1 = true) :
    (writeID e a m).1 = false ∧ (writeID e a m).2.1 = e ∧ (writeID e a m).2.2.2 = [] := by
  refine ⟨?_, ?_, ?_⟩ <;> simp [writeID, h]

/-- Pointwise effect of the zero-fill loop. -/
theorem zeroFill_spec :
    ∀ rem e p x, (zeroFill e p rem).1 x =
      if p ≤ x ∧ x < p + rem then 0 else e x := by
  intro rem
  induction rem with
  | zero =>
    intro e p x
    show e x = _
    rw [if_neg (by omega)]
  | succ n ih =>
    intro e p x
    show (zeroFill (eeWrite e p 0) (p + 1) n).1 x = _
    rw [ih]
    by_cases h1 : p + 1 ≤ x ∧ x < p + 1 + n
    · rw [if_pos h1, if_pos (by omega)]
    · rw [if_neg h1]
      by_cases h2 : x = p
      · show (if x = p then 0 else e x) = _
        rw [if_pos h2, if_pos (by omega)]
      · show (if x = p then 0 else e x) = _
        rw [if_neg h2, if_neg (by omega)]

/-- C1 (counterexample): inserting `[1,2,3,4]` into the empty registry
issues its writes in the order `count byte first` (address 0, value 1),
then the four payload bytes at addresses 6-9. The claim states the four
entry bytes are written before the incremented count; the trace shows the
count write comes first (rfid.ino:426 precedes 427-429). -/
theorem c1_counterexample :
    (writeID ee0 cA false).2.2.2 = [(0, 1), (6, 1), (7, 2), (8, 3), (9, 4)] := by
  decide

/-- C1 (amended): for every insert that proceeds and every remove of a
found credential, the count byte (address 0) is the FIRST persistent write
of the operation, issued before any payload write (insert, rfid.ino:426)
and before the left-shift of trailing entries (remove, rfid.ino:456) —
the reverse of the claimed payload-before-count discipline. -/
theorem c1_amended (e : EE) (a : Cred) (m : Bool) :
    ((findID e a m).1 = false →
      ((writeID e a m).2.2.2).head? = some (0, (e 0 + 1) % 256)) ∧
    ((findID e a m).1 = true →
      ((deleteID e a m).2.2.2).head? = some (0, (e 0 + 255) % 256)) := by
  constructor
  · intro h
    simp [writeID, h]
  · intro h
    simp [deleteID, h]

/-- C1 (witness): concrete instances of both halves of the amended claim:
the empty-store insert's first write is `(0, 1)` and the one-entry-store
remove's first write is `(0, 0)`. -/
theorem c1_witness :
    ((writeID ee0 cA false).2.2.2).head? = some (0, (ee0 0 + 1) % 256) ∧
    ((deleteID ee1 cA false).2.2.2).head? = some (0, (ee1 0 + 255) % 256) :=
  ⟨(c1_amended ee0 cA false).1 (by decide), (c1_amended ee1 cA false).2 (by decide)⟩

set_option maxRecDepth 4000 in
/-- C2 (counterexample): the capacity of the 1024-byte EEPROM of the
sketch's target boards is N_max = (1024 - 6) / 4 = 254 slots. With the
count byte at 254 and the distinct credential `[1,2,3,4]` absent,
`writeID` does NOT reject: it returns true and increments the count byte
to 255. The code has no capacity check (rfid.ino:421-437 tests only
`findID`), refuting the claimed StoreFull rejection. -/
theorem c2_counterexample :
    eeFull 0 = 254 ∧ (findID eeFull cA false).1 = false ∧
    (writeID eeFull cA false).1 = true ∧ (writeID eeFull cA false).2.1 0 = 255 := by
  decide

/-- C2 (amended): insert is rejected only when the membership scan finds
the credential already stored; there is no capacity check, so whenever the
scan fails — including with count already at N_max — the insert proceeds,
returns success and increments the count byte modulo 256. -/
theorem c2_amended (e : EE) (a : Cred) (m : Bool)
    (h : (findID e a m).1 = false) :
    (writeID e a m).1 = true ∧ (writeID e a m).2.1 0 = (e 0 + 1) % 256 := by
  constructor
  · simp [writeID, h]
  · have h0 : ¬ (0 = (e 0 * 4 + 6) % 256) := by omega
    have h1 : ¬ (0 = (e 0 * 4 + 6) % 256 + 1) := by omega
    have h2 : ¬ (0 = (e 0 * 4 + 6) % 256 + 2) := by omega
    have h3 : ¬ (0 = (e 0 * 4 + 6) % 256 + 3) := by omega
    simp [writeID, h, eeWrite, h0, h1, h2, h3]

/-- C2 (witness): inserting `[1,2,3,4]` into the empty registry succeeds
and sets the count byte to 1. -/
theorem c2_witness :
    (writeID ee0 cA false).1 = true ∧ (writeID ee0 cA false).2.1 0 = (ee0 0 + 1) % 256 :=
  c2_amended ee0 cA false (by decide)

/-- The wipe loop's guard can never become false when the EEPROM length
exceeds 255: the `uint8_t` index is always below 256. -/
theorem wipeAux_never_exits (fuel : Nat) :
    ∀ e x, x < 256 → wipeAux 1024 e x fuel = none := by
  induction fuel with
  | zero =>
    intro e x _
    rfl
  | succ n ih =>
    intro e x hx
    show (if x < 1024 then
      wipeAux 1024 (if e x = 0 then e else eeWrite e x 0) ((x + 1) % 256) n
      else some e) = none
    rw [if_pos (by omega)]
    exact ih _ _ (Nat.mod_lt _ (by omega))

/-- C3 (code bug): the full-wipe loop (rfid.ino:147) iterates
`for (uint8_t x = 0; x < EEPROM.length(); x = x + 1)`. On the sketch's
target boards `EEPROM.length()` is 1024, but `x` is a `uint8_t` and wraps
from 255 back to 0, so the guard `x < 1024` is always true: the loop never
terminates, no matter how many iterations (fuel) it is given, and bytes
256-1023 are never visited. The claim (terminates visiting each byte of
the region exactly once) matches the code's evident intent — the loop
comment and the subsequent success message — so the `uint8_t` index is a
slip, not a design choice. -/
theorem c3_wipe_nonterminating :
    ∀ (fuel : Nat) (e : EE), wipeAux 1024 e 0 fuel = none :=
  fun fuel e => wipeAux_never_exits fuel e 0 (by omega)

/-- C4 (counterexample): `checkTwo` on the byte-wise equal pair
`([0,2,3,4], [0,2,3,4])` returns false when the global `match` flag is
false (its initial value, rfid.ino:79) and true when the flag is true:
the result is neither "true iff bytes pairwise equal" nor independent of
prior global state, because `a[0] == 0` skips the `match = true`
initialization (rfid.ino:470-471). -/
theorem c4_counterexample :
    checkTwo cZ cZ false = false ∧ checkTwo cZ cZ true = true := by
  decide

/-- C4 (amended): for probe credentials whose first byte is nonzero,
`checkTwo` returns true if and only if the four bytes are pairwise equal,
and the result does not depend on the global `match` flag; when the first
byte is zero the result additionally depends on the flag left by earlier
calls. -/
theorem c4_amended (a b : Cred) (m : Bool) (ha : a 0 ≠ 0) :
    checkTwo a b m = true ↔ ∀ k : Fin 4, a k = b k := by
  rw [checkTwo_true_iff a b m ha]
  constructor
  · intro h k
    rw [h]
  · intro h
    funext k
    exact h k

/-- C4 (witness): `checkTwo` accepts the equal pair `([1,2,3,4],[1,2,3,4])`
with the flag false. -/
theorem c4_witness : checkTwo cA cA false = true :=
  (c4_amended cA cA false (by decide)).mpr fun _ => rfl

/-- C6 (counterexample): the credential `[0,5,5,5]` is stored in slot 1 of
`eeZ` (count 1), yet `writeID` with the global `match` flag at its initial
false value does NOT report failure: the membership scan misses it (first byte
zero, rfid.ino:470), so the insert proceeds, performs persistent writes and
bumps the count to 2, storing a duplicate. This refutes the claim that
inserting an already-present credential performs no persistent write. -/
theorem c6_counterexample :
    readID eeZ 1 = cZ ∧ eeZ 0 = 1 ∧ (writeID eeZ cZ false).1 = true ∧
    (writeID eeZ cZ false).2.1 0 = 2 ∧ (writeID eeZ cZ false).2.2.2 ≠ [] := by
  decide

/-- C6 (amended): removing a credential absent from all slots returns
failure and performs no persistent write (unconditionally), and inserting
an already-present credential returns failure and performs no persistent
write provided its first byte is nonzero; a present credential with first
byte 0 can evade the membership scan and be re-inserted as a duplicate. -/
theorem c6_amended (e : EE) (a b : Cred) (m1 m2 : Bool)
    (habs : ∀ i, 1 ≤ i → i ≤ e 0 → readID e i ≠ a)
    (hb0 : b 0 ≠ 0)
    (hpres : ∃ i, 1 ≤ i ∧ i ≤ e 0 ∧ readID e i = b) :
    (deleteID e a m1).1 = false ∧ (deleteID e a m1).2.1 = e ∧
    (deleteID e a m1).2.2.2 = [] ∧
    (writeID e b m2).1 = false ∧ (writeID e b m2).2.1 = e ∧
    (writeID e b m2).2.2.2 = [] := by
  have hf1 : (findID e a m1).1 = false := findID_false_of_absent e a m1 habs
  have hf2 : (findID e b m2).1 = true := (findID_true_iff e b m2 hb0).mpr hpres
  have hw := writeID_found_no_write e b m2 hf2
  refine ⟨?_, ?_, ?_, hw.1, hw.2.1, hw.2.2⟩ <;> simp [deleteID, hf1]

/-- C6 (witness): on the one-entry registry `ee1` (slot 1 = `[1,2,3,4]`),
removing the absent `[0,5,5,5]` and re-inserting the present `[1,2,3,4]`
both fail with an empty write trace. -/
theorem c6_witness :
    (deleteID ee1 cZ false).1 = false ∧ (deleteID ee1 cZ false).2.2.2 = [] ∧
    (writeID ee1 cA false).1 = false ∧ (writeID ee1 cA false).2.2.2 = [] := by
  have h := c6_amended ee1 cZ cA false false
    (fun i h1 h2 => by
      have he : ee1 0 = 1 := rfl
      rw [he] at h2
      have : i = 1 := by omega
      rw [this]
      decide)
    (by decide)
    ⟨1, le_refl 1, by decide, by decide⟩
  exact ⟨h.1, h.2.2.1, h.2.2.2.1, h.2.2.2.2.2⟩

/-- C7 (confirmed): whenever the controller is in PROGRAMMING mode
(`programMode = true`), one loop iteration — whatever the scanned card is
and whatever the store holds — ends with `programMode = false`
(rfid.ino:283 runs unconditionally at the end of the programming branch),
so PROGRAMMING never persists across two consecutive scans. -/
theorem c7_programming_exits (master : Cred) (e : EE) (m : Bool) (c : Cred)
    (second : Option Cred) :
    (loopStep master true e m c second).1 = false := by
  simp only [loopStep, if_pos]
  split
  · rfl
  · split
    · rfl
    · rfl

/-- C8 (confirmed): both wipe paths sample the wipe input at the start of
their confirmation window (`b1`) and again at its end (`b2`); unless both
samples are asserted, the bootstrap path returns the EEPROM unchanged
(without entering the wipe loop) and the main-loop path neither writes the
magic byte nor halts. -/
theorem c8_sustained (L : Nat) (b1 b2 : Bool) (e : EE) (fuel : Nat)
    (h : ¬(b1 = true ∧ b2 = true)) :
    setupWipePath L b1 b2 e fuel = some e ∧ loopWipePath b1 b2 e = (e, false) := by
  cases b1 <;> cases b2 <;> simp_all [setupWipePath, loopWipePath]

/-- C8 (witness): with the input asserted at the start but released by the
end of the window, both paths leave the EEPROM untouched. -/
theorem c8_witness :
    setupWipePath 1024 true false ee1 9 = some ee1 ∧
    loopWipePath true false ee1 = (ee1, false) :=
  c8_sustained 1024 true false ee1 9 (by simp)

/-- C9 (counterexample): on `eeM` (master `[9,9,9,9]` at bytes 2-5, marker
143 at byte 1), the confirmed main-loop wipe leaves bytes 2 and 3 at value
9: the code executes only `EEPROM.write(1, 0)` (rfid.ino:240) and never
clears the master credential slot, refuting the claim that bytes 2-5 are
cleared by this path. -/
theorem c9_counterexample :
    (loopWipePath true true eeM).1 2 = 9 ∧ (loopWipePath true true eeM).1 3 = 9 := by
  decide

/-- C9 (amended): a confirmed main-loop wipe clears only the masterDefined
marker (persistent byte 1 is set to 0); every other persistent byte —
including the master credential bytes 2-5, the count byte and all slots —
is left unchanged, and the device then halts until a manual restart. -/
theorem c9_amended (e : EE) :
    (loopWipePath true true e).1 1 = 0 ∧
    (∀ x, x ≠ 1 → (loopWipePath true true e).1 x = e x) ∧
    (loopWipePath true true e).2 = true := by
  refine ⟨rfl, fun x hx => ?_, rfl⟩
  show (if x = 1 then 0 else e x) = e x
  rw [if_neg hx]

/-- C9 (witness): concrete instance on `eeM`: byte 1 is zeroed and byte 5
keeps its value. -/
theorem c9_witness :
    (loopWipePath true true eeM).1 5 = eeM 5 ∧ (loopWipePath true true eeM).1 1 = 0 :=
  ⟨(c9_amended eeM).2.1 5 (by decide), (c9_amended eeM).1⟩

/-- C10 (counterexample): `[0,5,5,5]` is present in slot 1 of `eeZ`
(count 1), yet `findIDSLOT` with the global `match` flag at its initial
false value executes no return statement — the fall-through path IS
reachable under the claimed "credential present" precondition, because the
first-byte-zero probe makes `checkTwo` return the stale flag value
(rfid.ino:470-471). -/
theorem c10_counterexample :
    readID eeZ 1 = cZ ∧ eeZ 0 = 1 ∧ (findIDSLOT eeZ cZ false).1 = none := by
  decide

/-- C10 (amended): under the precondition that the searched credential is
present in slots `1 .. count` AND has a nonzero first byte, `findIDSLOT`
returns (the 1-based index of) the first matching slot, so the
fall-through path that would yield an unspecified value is unreachable;
with a zero first byte the fall-through is reachable even for present
credentials. -/
theorem c10_amended (e : EE) (a : Cred) (m : Bool) (ha : a 0 ≠ 0)
    (hp : ∃ i, 1 ≤ i ∧ i ≤ e 0 ∧ readID e i = a) :
    ∃ s, (findIDSLOT e a m).1 = some s ∧ 1 ≤ s ∧ s ≤ e 0 ∧ readID e s = a ∧
      ∀ j, 1 ≤ j → j < s → readID e j ≠ a := by
  obtain ⟨s, h1, h2, h3, h4, h5⟩ := findIDSLOT_found e a m ha hp
  exact ⟨s, h5, h1, h2, h3, h4⟩

/-- C5 (counterexample): `[0,5,5,5]` is present in slot 1 of `eeZ`
(count 1), yet `deleteID` with the global `match` flag at its initial
false value FAILS (returns false) and leaves the count byte at 1: the
membership scan misses first-byte-zero credentials, refuting the claim
that removing any present credential succeeds and decrements the count. -/
theorem c5_counterexample :
    readID eeZ 1 = cZ ∧ eeZ 0 = 1 ∧ (deleteID eeZ cZ false).1 = false ∧
    (deleteID eeZ cZ false).2.1 0 = 1 := by
  decide

/-- C5 (amended): for every store state with count at most 63 (so that no
`uint8_t` address computation wraps) and every credential with nonzero
first byte present in slots `1 .. count`, the remove succeeds, decrements
the count byte by exactly 1, removes exactly the first matching entry
(slot `s`), leaves slots below `s` unchanged, shifts every later slot down
by one position (order-preserving compaction, no holes), and zero-fills
the 4 bytes of the vacated final slot. -/
theorem c5_amended (e : EE) (a : Cred) (m : Bool)
    (hc : e 0 ≤ 63) (ha : a 0 ≠ 0)
    (hp : ∃ i, 1 ≤ i ∧ i ≤ e 0 ∧ readID e i = a) :
    ∃ s, 1 ≤ s ∧ s ≤ e 0 ∧ readID e s = a ∧
      (∀ j, 1 ≤ j → j < s → readID e j ≠ a) ∧
      (deleteID e a m).1 = true ∧
      (deleteID e a m).2.1 0 = e 0 - 1 ∧
      (∀ i, 1 ≤ i → i < s → readID (deleteID e a m).2.1 i = readID e i) ∧
      (∀ i, s ≤ i → i + 1 ≤ e 0 → readID (deleteID e a m).2.1 i = readID e (i + 1)) ∧
      (∀ k : Fin 4, readID (deleteID e a m).2.1 (e 0) k = 0) := by
  have hfind : (findID e a m).1 = true := (findID_true_iff e a m ha).mpr hp
  obtain ⟨s, hs1, hs2, hsa, hsmin, hslot⟩ := findIDSLOT_found e a (findID e a m).2 ha hp
  have hd : (deleteID e a m).1 = true ∧ (deleteID e a m).2.1 =
      (zeroFill (shiftAux ((s * 4 + 2) % 256) (eeWrite e 0 ((e 0 + 255) % 256)) 0
        (((e 0 - s) * 4) % 256)).1 ((s * 4 + 2) % 256 + ((e 0 - s) * 4) % 256) 4).1 := by
    constructor <;> simp [deleteID, hfind, hslot]
  have hmod1 : (s * 4 + 2) % 256 = s * 4 + 2 := Nat.mod_eq_of_lt (by omega)
  have hmod2 : ((e 0 - s) * 4) % 256 = (e 0 - s) * 4 := Nat.mod_eq_of_lt (by omega)
  have hmod3 : (e 0 + 255) % 256 = e 0 - 1 := by omega
  rw [hmod1, hmod2, hmod3] at hd
  have hE : ∀ x, (deleteID e a m).2.1 x =
      if s * 4 + 2 + (e 0 - s) * 4 ≤ x ∧ x < s * 4 + 2 + (e 0 - s) * 4 + 4 then 0
      else if s * 4 + 2 ≤ x ∧ x < s * 4 + 2 + (e 0 - s) * 4 then e (x + 4)
      else if x = 0 then e 0 - 1 else e x := by
    intro x
    rw [hd.2, zeroFill_spec, shiftAux_spec]
    by_cases hz : s * 4 + 2 + (e 0 - s) * 4 ≤ x ∧ x < s * 4 + 2 + (e 0 - s) * 4 + 4
    · rw [if_pos hz, if_pos hz]
    · rw [if_neg hz, if_neg hz]
      by_cases hsr : s * 4 + 2 ≤ x ∧ x < s * 4 + 2 + (e 0 - s) * 4
      · rw [if_pos (by omega), if_pos hsr]
        show (if x + 4 = 0 then e 0 - 1 else e (x + 4)) = e (x + 4)
        rw [if_neg (by omega)]
      · rw [if_neg (by omega), if_neg hsr]
        rfl
  refine ⟨s, hs1, hs2, hsa, hsmin, hd.1, ?_, ?_, ?_, ?_⟩
  · rw [hE 0, if_neg (by omega), if_neg (by omega), if_pos rfl]
  · intro i hi1 hi2
    funext k
    have hk : (k : Nat) < 4 := k.isLt
    have hmi : (i * 4 + 2) % 256 = i * 4 + 2 := Nat.mod_eq_of_lt (by omega)
    show (deleteID e a m).2.1 ((i * 4 + 2) % 256 + (k : Nat)) =
      e ((i * 4 + 2) % 256 + (k : Nat))
    rw [hmi, hE (i * 4 + 2 + (k : Nat)), if_neg (by omega), if_neg (by omega),
      if_neg (by omega)]
  · intro i hi1 hi2
    funext k
    have hk : (k : Nat) < 4 := k.isLt
    have hmi : (i * 4 + 2) % 256 = i * 4 + 2 := Nat.mod_eq_of_lt (by omega)
    have hmi1 : ((i + 1) * 4 + 2) % 256 = (i + 1) * 4 + 2 := Nat.mod_eq_of_lt (by omega)
    show (deleteID e a m).2.1 ((i * 4 + 2) % 256 + (k : Nat)) =
      e (((i + 1) * 4 + 2) % 256 + (k : Nat))
    rw [hmi, hmi1, hE (i * 4 + 2 + (k : Nat)), if_neg (by omega), if_pos (by omega)]
    congr 1
    omega
  · intro k
    have hk : (k : Nat) < 4 := k.isLt
    have hme : (e 0 * 4 + 2) % 256 = e 0 * 4 + 2 := Nat.mod_eq_of_lt (by omega)
    show (deleteID e a m).2.1 ((e 0 * 4 + 2) % 256 + (k : Nat)) = 0
    rw [hme, hE (e 0 * 4 + 2 + (k : Nat)), if_pos (by omega)]

/-- C5 (witness): removing `[1,2,3,4]` from the one-entry registry `ee1`
succeeds and brings the count byte to 0. -/
theorem c5_witness :
    (deleteID ee1 cA false).1 = true ∧ (deleteID ee1 cA false).2.1 0 = 0 := by
  obtain ⟨s, _, _, _, _, h6, h7, _, _, _⟩ := c5_amended ee1 cA false (by decide) (by decide)
    ⟨1, le_refl 1, by decide, by decide⟩
  exact ⟨h6, h7.trans (by decide)⟩

/-- C10 (witness): on `ee1` the slot scan for `[1,2,3,4]` returns slot 1. -/
theorem c10_witness : (findIDSLOT ee1 cA false).1 = some 1 := by
  obtain ⟨s, h1, h2, h3, _, _⟩ := c10_amended ee1 cA false (by decide)
    ⟨1, le_refl 1, by decide, by decide⟩
  have he : ee1 0 = 1 := rfl
  rw [he] at h3
  have hs : s = 1 := by omega
  rw [hs] at h1
  exact h1

end RFIDdoor
